import Mathlib

/-!
Verification of the arc-guard crate (src/lib.rs): a wrapper type ArcGuard
around a reference-counted, mutex-protected cell.  The heap of cells is made
explicit as a Store; an Arc handle is a cell identifier into that store, and
the reference-counting and mutual-exclusion collaborators (std Arc / Mutex)
are modelled as store operations.  The four one-line methods of the crate
(new, execute, arc, clone) are translated directly from the source.
-/

universe u v

/-- Model of the error the mutual-exclusion collaborator raises when the lock
was poisoned by a previous holder that terminated abnormally. -/
inductive PoisonError : Type where
  | mk : PoisonError
  deriving DecidableEq

/-- Explicit heap of reference-counted mutex cells.  Each cell identifier
carries a reference count, optional contents (none once the cell has been
destroyed), a poison flag and a lock flag of the mutual-exclusion
primitive. -/
structure Store (T : Type u) where
  next : Nat
  refcount : Nat → Nat
  contents : Nat → Option T
  poisoned : Nat → Bool
  locked : Nat → Bool

/-- Model of the reference-counting collaborator: allocation of a fresh cell
holding t, reference count one, not poisoned, unlocked.  This is the effect
of Arc.new of Mutex.new in the source. -/
def Store.alloc {T : Type u} (s : Store T) (t : T) : Nat × Store T :=
  (s.next,
   { next := s.next + 1
     refcount := fun i => if i = s.next then 1 else s.refcount i
     contents := fun i => if i = s.next then some t else s.contents i
     poisoned := fun i => if i = s.next then false else s.poisoned i
     locked := fun i => if i = s.next then false else s.locked i })

/-- Model of the reference-counting collaborator: cloning a handle increments
the reference count of its cell and changes nothing else. -/
def Store.incRef {T : Type u} (s : Store T) (h : Nat) : Store T :=
  { s with refcount := fun i => if i = h then s.refcount i + 1 else s.refcount i }

/-- Model of the reference-counting collaborator: dropping a handle decrements
the reference count of its cell; when the count reaches zero the protected
value is destroyed (the contents become none). -/
def Store.decRef {T : Type u} (s : Store T) (h : Nat) : Store T :=
  { s with
    refcount := fun i => if i = h then s.refcount h - 1 else s.refcount i
    contents := fun i =>
      if i = h then (if s.refcount h - 1 = 0 then none else s.contents i)
      else s.contents i }

/-- Model of the mutual-exclusion collaborator, as used by the read callbacks
of the specification scenarios: a scoped lock acquisition that reads the
protected value and releases on exit.  It fails with PoisonError exactly when
the cell is poisoned; the balanced acquire and release leave the lock flag as
it was. -/
def lockRead {T : Type u} (h : Nat) (s : Store T) : Except PoisonError (Option T) :=
  if s.poisoned h then Except.error PoisonError.mk else Except.ok (s.contents h)

/-- Model of the mutual-exclusion collaborator, as used by the mutating
callbacks of the specification scenarios: a scoped lock acquisition that
overwrites the protected value in place and releases on exit.  On a poisoned
cell the lock fails and nothing is written; a destroyed cell has no value to
overwrite. -/
def lockWrite {T : Type u} (h : Nat) (v : T) (s : Store T) : Store T :=
  if s.poisoned h then s
  else
    { s with contents := fun i =>
        if i = h then (s.contents i).map (fun _ => v) else s.contents i }

/-- Embedding of pub struct ArcGuard of T from src/lib.rs: the guard owns one
Arc handle, i.e. one identifier of a shared mutex cell in the store. -/
structure ArcGuard (T : Type u) where
  arc : Nat

/-- Embedding of ArcGuard::new: allocate a fresh cell initialized with t and
wrap its handle. -/
def ArcGuard.new {T : Type u} (t : T) (s : Store T) : ArcGuard T × Store T :=
  let p := s.alloc t
  (⟨p.fst⟩, p.snd)

/-- Embedding of ArcGuard::execute: the inner handle is cloned, the callback
is invoked with the clone, and when the callback scope ends the clone is
dropped.  A callback is a store-passing function from the received handle to
a result of an arbitrary type R. -/
def ArcGuard.execute {T : Type u} {R : Type v} (g : ArcGuard T)
    (callback : Nat → Store T → R × Store T) (s : Store T) : R × Store T :=
  let s1 := s.incRef g.arc
  let p := callback g.arc s1
  (p.fst, p.snd.decRef g.arc)

/-- Embedding of the method ArcGuard::arc (named arcM here because the field
projection already takes the name arc): returns a clone of the inner
handle. -/
def ArcGuard.arcM {T : Type u} (g : ArcGuard T) (s : Store T) : Nat × Store T :=
  (g.arc, s.incRef g.arc)

/-- Embedding of ArcGuard::clone: a new guard wrapping a clone of the inner
handle. -/
def ArcGuard.clone {T : Type u} (g : ArcGuard T) (s : Store T) : ArcGuard T × Store T :=
  (⟨g.arc⟩, s.incRef g.arc)

/-- Model of dropping one owner of a cell (a guard, a structural copy, or a
raw handle): the reference count decrement the reference-counting
collaborator performs on scope exit. -/
def dropHandle {T : Type u} (h : Nat) (s : Store T) : Store T := s.decRef h

/-- Callback of the specification scenarios that locks the received handle
and returns the protected value it reads. -/
def readCb {T : Type u} : Nat → Store T → Except PoisonError (Option T) × Store T :=
  fun h s => (lockRead h s, s)

/-- Callback of the specification scenarios that locks the received handle
and overwrites the protected value with v. -/
def writeCb {T : Type u} (v : T) : Nat → Store T → Unit × Store T :=
  fun h s => ((), lockWrite h v s)

/-- Scenario combinator: write v through the guard gw, then read through the
guard gr, both via execute. -/
def writeThenReadThrough {T : Type u} (gw gr : ArcGuard T) (v : T) (s : Store T) :
    Except PoisonError (Option T) :=
  (gr.execute readCb ((gw.execute (writeCb v) s).snd)).fst

/-- C1: execute invokes the callback with a clone of the inner handle of the
guard (the same cell identifier, in the store where that clone has bumped the
reference count) and returns exactly the value the callback produces,
unchanged, for every result type R. -/
theorem execute_returns_callback_value {T : Type u} {R : Type v}
    (g : ArcGuard T) (cb : Nat → Store T → R × Store T) (s : Store T) :
    (g.execute cb s).fst = (cb g.arc (s.incRef g.arc)).fst := rfl

/-- C2: constructing a guard with value v initializes its cell with v at
reference count one, and accessing through a callback that locks and reads
yields exactly v. -/
theorem new_execute_reads_value {T : Type u} (v : T) (s : Store T) :
    ((ArcGuard.new v s).snd.contents (ArcGuard.new v s).fst.arc = some v) ∧
    ((ArcGuard.new v s).snd.refcount (ArcGuard.new v s).fst.arc = 1) ∧
    (((ArcGuard.new v s).fst.execute readCb (ArcGuard.new v s).snd).fst
      = Except.ok (some v)) := by
  refine ⟨?_, ?_, ?_⟩ <;>
    simp [ArcGuard.new, Store.alloc, ArcGuard.execute, Store.incRef, readCb, lockRead]

/-- C3: a structural copy aliases the same cell as the original: on a live,
unpoisoned cell, a value written through the copy is read back through the
original, and a value written through the original is read back through the
copy. -/
theorem clone_aliases {T : Type u} (g : ArcGuard T) (s : Store T) (v w : T)
    (hp : s.poisoned g.arc = false) (hc : s.contents g.arc = some w) :
    (writeThenReadThrough (g.clone s).fst g v (g.clone s).snd = Except.ok (some v)) ∧
    (writeThenReadThrough g (g.clone s).fst v (g.clone s).snd = Except.ok (some v)) := by
  constructor <;>
    simp [writeThenReadThrough, ArcGuard.execute, ArcGuard.clone, Store.incRef,
      Store.decRef, writeCb, readCb, lockWrite, lockRead, hp, hc]

/-- Concrete guard used by the witnesses: the guard of cell 0. -/
def gW : ArcGuard Nat := ⟨0⟩

/-- Concrete store used by the witnesses: one live cell 0 holding 41 at
reference count one. -/
def sW : Store Nat :=
  { next := 1
    refcount := fun _ => 1
    contents := fun i => if i = 0 then some 41 else none
    poisoned := fun _ => false
    locked := fun _ => false }

/-- Witness for C3 at the concrete guard gW and store sW. -/
theorem clone_aliases_witness :
    sW.poisoned gW.arc = false ∧ sW.contents gW.arc = some 41 ∧
    ((writeThenReadThrough (gW.clone sW).fst gW 7 (gW.clone sW).snd = Except.ok (some 7)) ∧
     (writeThenReadThrough gW (gW.clone sW).fst 7 (gW.clone sW).snd = Except.ok (some 7))) :=
  ⟨rfl, rfl, clone_aliases gW sW 7 41 rfl rfl⟩

/-- C4: the raw handle returned by the arc method aliases the cell of the
guard: on a live, unpoisoned cell, a value written through that raw handle is
observed by a subsequent execute call on the original guard whose callback
locks and reads. -/
theorem arc_handle_aliases {T : Type u} (g : ArcGuard T) (s : Store T) (v w : T)
    (hp : s.poisoned g.arc = false) (hc : s.contents g.arc = some w) :
    (g.execute readCb (lockWrite (g.arcM s).fst v (g.arcM s).snd)).fst
      = Except.ok (some v) := by
  simp [ArcGuard.execute, ArcGuard.arcM, Store.incRef, Store.decRef,
    readCb, lockRead, lockWrite, hp, hc]

/-- Witness for C4 at the concrete guard gW and store sW. -/
theorem arc_handle_aliases_witness :
    sW.poisoned gW.arc = false ∧ sW.contents gW.arc = some 41 ∧
    (gW.execute readCb (lockWrite (gW.arcM sW).fst 9 (gW.arcM sW).snd)).fst
      = Except.ok (some 9) :=
  ⟨rfl, rfl, arc_handle_aliases gW sW 9 41 rfl rfl⟩

/-- C5: execute increments the reference count of the cell of the guard
exactly once to produce the handle the callback receives, decrements it
exactly once when that clone is dropped, and performs no locking of its own:
for any callback that leaves reference counts and lock flags as it found
them, the whole call leaves the reference counts and lock flags of the store
unchanged. -/
theorem execute_balances_refcount {T : Type u} {R : Type v}
    (g : ArcGuard T) (cb : Nat → Store T → R × Store T) (s : Store T)
    (hrc : (cb g.arc (s.incRef g.arc)).snd.refcount = (s.incRef g.arc).refcount)
    (hlk : (cb g.arc (s.incRef g.arc)).snd.locked = (s.incRef g.arc).locked) :
    ((s.incRef g.arc).refcount
       = Function.update s.refcount g.arc (s.refcount g.arc + 1)) ∧
    ((g.execute cb s).snd.refcount = s.refcount) ∧
    ((g.execute cb s).snd.locked = s.locked) := by
  refine ⟨?_, ?_, ?_⟩
  · funext i
    rw [Function.update_apply]
    by_cases h : i = g.arc <;> simp [Store.incRef, h]
  · funext i
    simp only [ArcGuard.execute, Store.decRef, hrc]
    by_cases h : i = g.arc <;> simp [Store.incRef, h]
  · simpa [ArcGuard.execute, Store.decRef] using hlk

/-- Concrete callback used by the witnesses: it touches nothing and returns
the unit value. -/
def cbU : Nat → Store Nat → Unit × Store Nat := fun _ st => ((), st)

/-- Witness for C5 at the concrete guard gW, store sW and callback cbU. -/
theorem execute_balances_refcount_witness :
    ((cbU gW.arc (sW.incRef gW.arc)).snd.refcount = (sW.incRef gW.arc).refcount) ∧
    ((cbU gW.arc (sW.incRef gW.arc)).snd.locked = (sW.incRef gW.arc).locked) ∧
    (((sW.incRef gW.arc).refcount
        = Function.update sW.refcount gW.arc (sW.refcount gW.arc + 1)) ∧
     ((gW.execute cbU sW).snd.refcount = sW.refcount) ∧
     ((gW.execute cbU sW).snd.locked = sW.locked)) :=
  ⟨rfl, rfl, execute_balances_refcount gW cbU sW rfl rfl⟩

/-- C6: construction, handle retrieval and structural copy are infallible (new
always yields a live, unpoisoned cell at reference count one holding the
given value; arc and clone always return an alias of the cell of the guard),
and execute raises no error of its own: it returns the Except value of the
callback untouched, and the only error in the model is the poison failure of
the lock acquisition the callback itself performs, raised exactly when the
cell is poisoned. -/
theorem ops_infallible_poison_passthrough {T : Type u} {A : Type v}
    (t : T) (g : ArcGuard T) (s : Store T)
    (cb : Nat → Store T → Except PoisonError A × Store T) :
    ((ArcGuard.new t s).snd.contents (ArcGuard.new t s).fst.arc = some t) ∧
    ((ArcGuard.new t s).snd.refcount (ArcGuard.new t s).fst.arc = 1) ∧
    ((ArcGuard.new t s).snd.poisoned (ArcGuard.new t s).fst.arc = false) ∧
    ((g.arcM s).fst = g.arc) ∧
    ((g.clone s).fst.arc = g.arc) ∧
    ((g.execute cb s).fst = (cb g.arc (s.incRef g.arc)).fst) ∧
    (lockRead g.arc s = Except.error PoisonError.mk ↔ s.poisoned g.arc = true) := by
  refine ⟨?_, ?_, ?_, rfl, rfl, rfl, ?_⟩
  · simp [ArcGuard.new, Store.alloc]
  · simp [ArcGuard.new, Store.alloc]
  · simp [ArcGuard.new, Store.alloc]
  · unfold lockRead
    cases h : s.poisoned g.arc <;> simp [h]

/-- C7: dropping one owner of a cell destroys the protected value only when
it was the last owner: while the reference count is at least two the contents
survive the drop; when the count is exactly one the drop destroys the value
and the count reaches zero; and a destroyed cell stays destroyed. -/
theorem drop_destroys_only_last {T : Type u} (h : Nat) (s : Store T) :
    (2 ≤ s.refcount h → (dropHandle h s).contents h = s.contents h) ∧
    (s.refcount h = 1 →
      ((dropHandle h s).contents h = none ∧ (dropHandle h s).refcount h = 0)) ∧
    (s.contents h = none → (dropHandle h s).contents h = none) := by
  refine ⟨?_, ?_, ?_⟩
  · intro hge
    have hne : ¬ (s.refcount h - 1 = 0) := by omega
    simp [dropHandle, Store.decRef, hne]
  · intro heq
    simp [dropHandle, Store.decRef, heq]
  · intro hnone
    by_cases hz : s.refcount h - 1 = 0 <;> simp [dropHandle, Store.decRef, hz, hnone]

/-- Concrete store used by the C7 witness: one live cell 0 holding 5 at
reference count two. -/
def sW2 : Store Nat :=
  { next := 1
    refcount := fun _ => 2
    contents := fun i => if i = 0 then some 5 else none
    poisoned := fun _ => false
    locked := fun _ => false }

/-- Witness for C7: dropping one of two owners keeps the value; dropping the
then-last owner destroys it; a destroyed cell stays destroyed. -/
theorem drop_destroys_only_last_witness :
    (2 ≤ sW2.refcount 0 ∧ (dropHandle 0 sW2).contents 0 = sW2.contents 0) ∧
    ((dropHandle 0 sW2).refcount 0 = 1 ∧
      ((dropHandle 0 (dropHandle 0 sW2)).contents 0 = none ∧
       (dropHandle 0 (dropHandle 0 sW2)).refcount 0 = 0)) ∧
    ((dropHandle 0 (dropHandle 0 sW2)).contents 0 = none →
      (dropHandle 0 (dropHandle 0 (dropHandle 0 sW2))).contents 0 = none) :=
  ⟨⟨by decide, (drop_destroys_only_last 0 sW2).1 (by decide)⟩,
   ⟨by decide, (drop_destroys_only_last 0 (dropHandle 0 sW2)).2.1 (by decide)⟩,
   (drop_destroys_only_last 0 (dropHandle 0 (dropHandle 0 sW2))).2.2⟩

/-- C9: execute invokes the callback exactly once and synchronously: the whole
call is equal to the single application of the callback to the cloned handle,
followed by the drop of that clone, and its result is the result of that one
application. -/
theorem execute_single_invocation {T : Type u} {R : Type v}
    (g : ArcGuard T) (cb : Nat → Store T → R × Store T) (s : Store T) :
    g.execute cb s
      = ((cb g.arc (s.incRef g.arc)).fst,
         ((cb g.arc (s.incRef g.arc)).snd).decRef g.arc) := rfl

/-- C10: every operation leaves the guard itself untouched and hands out only
aliases of its cell: the structural copy and the raw handle name the same
cell, a copy of a copy still does, the handle execute passes to its callback
is the cell of the guard, and neither arc nor clone changes the contents,
poison flag or lock flag of any cell. -/
theorem ops_preserve_guard_cell {T : Type u} (g : ArcGuard T) (s : Store T) :
    ((g.clone s).fst.arc = g.arc) ∧
    ((g.arcM s).fst = g.arc) ∧
    (((g.clone s).fst.clone (g.clone s).snd).fst.arc = g.arc) ∧
    ((g.execute (fun h st => (h, st)) s).fst = g.arc) ∧
    ((g.clone s).snd.contents = s.contents) ∧
    ((g.clone s).snd.poisoned = s.poisoned) ∧
    ((g.clone s).snd.locked = s.locked) ∧
    ((g.arcM s).snd.contents = s.contents) ∧
    ((g.arcM s).snd.poisoned = s.poisoned) ∧
    ((g.arcM s).snd.locked = s.locked) :=
  ⟨rfl, rfl, rfl, rfl, rfl, rfl, rfl, rfl, rfl, rfl⟩

/-!
Concurrency model for the no-lost-update property.  Each of the N parallel
contexts of the specification scenario runs the increment-and-read callback
under execute; by the aliasing theorems above every handle execute hands out
names the same cell, so the shared state is that one cell value together with
the lock of its mutual-exclusion primitive.  A thread program is the body of
the callback: acquire the lock, read the value, write the incremented value,
release the lock.  The step relation interleaves these four atomic
instructions of the threads arbitrarily; acquisition is possible only when no
thread holds the lock, exactly the guarantee of the mutual-exclusion
collaborator.
-/

/-- Program counter of one thread running the increment-and-read callback:
not yet started, lock acquired, value read (remembering the value it saw),
incremented value written, or finished after releasing. -/
inductive TState : Type where
  | idle : TState
  | holding : TState
  | readv : Nat → TState
  | wrote : TState
  | done : TState
  deriving DecidableEq

/-- Global configuration of the scenario: which thread holds the lock (none
when it is free), the protected integer value of the shared cell, and the
program counters of the threads. -/
structure Config : Type where
  lock : Option Nat
  value : Nat
  ts : List TState
  deriving DecidableEq

/-- One interleaving step: some thread executes its next instruction.  A
thread may acquire only when the lock is free; reading and writing happen
between its acquire and its release; releasing frees the lock. -/
inductive Step : Config → Config → Prop where
  | acquire (i : Nat) (c : Config) :
      c.ts[i]? = some TState.idle → c.lock = none →
      Step c ⟨some i, c.value, c.ts.set i TState.holding⟩
  | readStep (i : Nat) (c : Config) :
      c.ts[i]? = some TState.holding →
      Step c ⟨c.lock, c.value, c.ts.set i (TState.readv c.value)⟩
  | writeStep (i : Nat) (c : Config) (v : Nat) :
      c.ts[i]? = some (TState.readv v) →
      Step c ⟨c.lock, v + 1, c.ts.set i TState.wrote⟩
  | release (i : Nat) (c : Config) :
      c.ts[i]? = some TState.wrote →
      Step c ⟨none, c.value, c.ts.set i TState.done⟩

/-- Initial configuration of the scenario: lock free, the constructed value,
and n threads that have not started. -/
def initConfig (n : Nat) (init : Nat) : Config :=
  ⟨none, init, List.replicate n TState.idle⟩

/-- Number of increments a thread in this state has already performed. -/
def contrib : TState → Nat
  | TState.wrote => 1
  | TState.done => 1
  | _ => 0

/-- Total number of increments already performed by a list of threads. -/
def sumContrib : List TState → Nat
  | [] => 0
  | t :: rest => contrib t + sumContrib rest

/-- A thread in this state is inside its critical section (between its
acquire and its release). -/
def holdsLock : TState → Prop
  | TState.holding => True
  | TState.readv _ => True
  | TState.wrote => True
  | _ => False

/-- List helper: updating an index leaves every other index unchanged. -/
theorem getElem?_set_other {α : Type u} (l : List α) (i j : Nat) (b : α)
    (hij : i ≠ j) : (l.set i b)[j]? = l[j]? := by
  induction l generalizing i j with
  | nil => simp
  | cons x xs ih =>
    cases i with
    | zero =>
      cases j with
      | zero => exact absurd rfl hij
      | succ j => simp [List.set]
    | succ i =>
      cases j with
      | zero => simp [List.set]
      | succ j => simpa [List.set] using ih i j (fun h => hij (by omega))

/-- List helper: updating an occupied index stores the new element there. -/
theorem getElem?_set_same {α : Type u} (l : List α) (i : Nat) (a b : α)
    (h : l[i]? = some a) : (l.set i b)[i]? = some b := by
  induction l generalizing i with
  | nil => simp at h
  | cons x xs ih =>
    cases i with
    | zero => simp [List.set]
    | succ i =>
      simp only [List.getElem?_cons_succ] at h
      simpa [List.set] using ih i h

/-- List helper: every element of a replicated list is the replicated one. -/
theorem getElem?_replicate_elem {α : Type u} (n i : Nat) (a b : α)
    (h : (List.replicate n a)[i]? = some b) : b = a := by
  induction n generalizing i with
  | zero => simp [List.replicate] at h
  | succ n ih =>
    cases i with
    | zero =>
      simp [List.replicate] at h
      exact h.symm
    | succ i =>
      simp only [List.replicate, List.getElem?_cons_succ] at h
      exact ih i h

/-- Updating one thread state changes the increment count by the difference
of the contributions of the old and the new state. -/
theorem sumContrib_set (l : List TState) (i : Nat) (a b : TState)
    (h : l[i]? = some a) :
    sumContrib (l.set i b) + contrib a = sumContrib l + contrib b := by
  induction l generalizing i with
  | nil => simp at h
  | cons x xs ih =>
    cases i with
    | zero =>
      simp only [List.getElem?_cons_zero, Option.some.injEq] at h
      subst h
      simp [List.set, sumContrib]
      omega
    | succ i =>
      simp only [List.getElem?_cons_succ] at h
      have := ih i h
      simp [List.set, sumContrib]
      omega

/-- When every thread is finished the increment count is the thread count. -/
theorem sumContrib_all_done (l : List TState)
    (h : ∀ st ∈ l, st = TState.done) : sumContrib l = l.length := by
  induction l with
  | nil => rfl
  | cons x xs ih =>
    have hx : x = TState.done := h x (by simp)
    have hxs : ∀ st ∈ xs, st = TState.done := fun st hst => h st (by simp [hst])
    subst hx
    simp [sumContrib, contrib, ih hxs]
    omega

/-- Before any thread has run the increment count is zero. -/
theorem sumContrib_replicate_idle (n : Nat) :
    sumContrib (List.replicate n TState.idle) = 0 := by
  induction n with
  | zero => rfl
  | succ n ih => simp [List.replicate, sumContrib, contrib, ih]

/-- Inductive invariant of the scenario: the value records the increments
performed so far, every thread inside its critical section is the lock
holder (so there is at most one such thread), and a thread that has read but
not yet written saw the current value. -/
structure ConcInv (init : Nat) (c : Config) : Prop where
  val : c.value = init + sumContrib c.ts
  lockOwn : ∀ (i : Nat) (st : TState), c.ts[i]? = some st → holdsLock st → c.lock = some i
  readAcc : ∀ (i v : Nat), c.ts[i]? = some (TState.readv v) → v = c.value

/-- The invariant holds initially. -/
theorem inv_init (n init : Nat) : ConcInv init (initConfig n init) := by
  refine ⟨?_, ?_, ?_⟩
  · simp [initConfig, sumContrib_replicate_idle]
  · intro i st h hh
    have he := getElem?_replicate_elem n i TState.idle st h
    subst he
    exact absurd hh (by simp [holdsLock])
  · intro i v h
    have he := getElem?_replicate_elem n i TState.idle (TState.readv v) h
    exact absurd he (by simp)

/-- The invariant is preserved by every interleaving step.  Mutual exclusion
is what carries the proof of the write case: while the writing thread holds
the lock no other thread can be between its read and its write, so the
increment is applied to the value the writer saw. -/
theorem inv_step {init : Nat} {c c' : Config} (hs : Step c c') (hI : ConcInv init c) :
    ConcInv init c' := by
  obtain ⟨hval, hlock, hread⟩ := hI
  cases hs with
  | acquire i _ hti hl =>
    refine ⟨?_, ?_, ?_⟩
    · have hsum := sumContrib_set c.ts i TState.idle TState.holding hti
      simp only [contrib] at hsum
      show c.value = init + sumContrib (c.ts.set i TState.holding)
      omega
    · intro j st hj hh
      show some i = some j
      by_cases hij : j = i
      · subst hij; rfl
      · rw [getElem?_set_other c.ts i j TState.holding (fun h => hij h.symm)] at hj
        have hcl := hlock j st hj hh
        rw [hl] at hcl
        exact absurd hcl (by simp)
    · intro j v hj
      show v = c.value
      by_cases hij : j = i
      · subst hij
        rw [getElem?_set_same c.ts j TState.idle TState.holding hti] at hj
        exact absurd hj (by simp)
      · rw [getElem?_set_other c.ts i j TState.holding (fun h => hij h.symm)] at hj
        exact hread j v hj
  | readStep i _ hti =>
    refine ⟨?_, ?_, ?_⟩
    · have hsum := sumContrib_set c.ts i TState.holding (TState.readv c.value) hti
      simp only [contrib] at hsum
      show c.value = init + sumContrib (c.ts.set i (TState.readv c.value))
      omega
    · intro j st hj hh
      show c.lock = some j
      by_cases hij : j = i
      · subst hij; exact hlock j TState.holding hti trivial
      · rw [getElem?_set_other c.ts i j (TState.readv c.value) (fun h => hij h.symm)] at hj
        exact hlock j st hj hh
    · intro j v hj
      show v = c.value
      by_cases hij : j = i
      · subst hij
        rw [getElem?_set_same c.ts j TState.holding (TState.readv c.value) hti] at hj
        have : TState.readv c.value = TState.readv v := by simpa using hj
        simp at this
        exact this.symm
      · rw [getElem?_set_other c.ts i j (TState.readv c.value) (fun h => hij h.symm)] at hj
        exact hread j v hj
  | writeStep i _ v hti =>
    have hvv : v = c.value := hread i v hti
    refine ⟨?_, ?_, ?_⟩
    · have hsum := sumContrib_set c.ts i (TState.readv v) TState.wrote hti
      simp only [contrib] at hsum
      show v + 1 = init + sumContrib (c.ts.set i TState.wrote)
      omega
    · intro j st hj hh
      show c.lock = some j
      by_cases hij : j = i
      · subst hij; exact hlock j (TState.readv v) hti trivial
      · rw [getElem?_set_other c.ts i j TState.wrote (fun h => hij h.symm)] at hj
        exact hlock j st hj hh
    · intro j w hj
      show w = v + 1
      by_cases hij : j = i
      · subst hij
        rw [getElem?_set_same c.ts j (TState.readv v) TState.wrote hti] at hj
        exact absurd hj (by simp)
      · rw [getElem?_set_other c.ts i j TState.wrote (fun h => hij h.symm)] at hj
        have h1 := hlock j (TState.readv w) hj trivial
        have h2 := hlock i (TState.readv v) hti trivial
        rw [h1] at h2
        simp at h2
        exact absurd h2 hij
  | release i _ hti =>
    refine ⟨?_, ?_, ?_⟩
    · have hsum := sumContrib_set c.ts i TState.wrote TState.done hti
      simp only [contrib] at hsum
      show c.value = init + sumContrib (c.ts.set i TState.done)
      omega
    · intro j st hj hh
      show (none : Option Nat) = some j
      by_cases hij : j = i
      · subst hij
        rw [getElem?_set_same c.ts j TState.wrote TState.done hti] at hj
        have hst : st = TState.done := by simpa using hj.symm
        subst hst
        exact absurd hh (by simp [holdsLock])
      · rw [getElem?_set_other c.ts i j TState.done (fun h => hij h.symm)] at hj
        have h1 := hlock j st hj hh
        have h2 := hlock i TState.wrote hti trivial
        rw [h1] at h2
        simp at h2
        exact absurd h2 hij
    · intro j w hj
      show w = c.value
      by_cases hij : j = i
      · subst hij
        rw [getElem?_set_same c.ts j TState.wrote TState.done hti] at hj
        exact absurd hj (by simp)
      · rw [getElem?_set_other c.ts i j TState.done (fun h => hij h.symm)] at hj
        exact hread j w hj

/-- The invariant holds in every reachable configuration. -/
theorem inv_reach {n init : Nat} {c : Config}
    (h : Relation.ReflTransGen Step (initConfig n init) c) : ConcInv init c := by
  induction h with
  | refl => exact inv_init n init
  | tail hab hbc ih => exact inv_step hbc ih

/-- Interleaving steps do not change the number of threads. -/
theorem step_length {c c' : Config} (h : Step c c') : c'.ts.length = c.ts.length := by
  cases h <;> simp

/-- Every reachable configuration still has its n threads. -/
theorem reach_length {n init : Nat} {c : Config}
    (h : Relation.ReflTransGen Step (initConfig n init) c) : c.ts.length = n := by
  induction h with
  | refl => simp [initConfig]
  | tail hab hbc ih => rw [step_length hbc]; exact ih

/-- C8: for every thread count n and every initial value, after any complete
interleaving of n concurrent increment-and-read critical sections (a
reachable configuration in which every thread has finished) the protected
value is the initial value plus n: no update is lost. -/
theorem concurrent_increments_no_lost_update (n init : Nat) (c : Config)
    (hr : Relation.ReflTransGen Step (initConfig n init) c)
    (hdone : ∀ st ∈ c.ts, st = TState.done) :
    c.value = init + n := by
  have hI := inv_reach hr
  have hlen := reach_length hr
  have hsum := sumContrib_all_done c.ts hdone
  have hval := hI.val
  omega

/-- Final configuration of the concrete one-thread run used by the C8
witness. -/
def c8Final : Config := ⟨none, 1, [TState.done]⟩

/-- Complete interleaving of one thread performing increment-and-read from
initial value zero: acquire, read, write, release. -/
theorem c8_trace : Relation.ReflTransGen Step (initConfig 1 0) c8Final :=
  Relation.ReflTransGen.tail
    (Relation.ReflTransGen.tail
      (Relation.ReflTransGen.tail
        (Relation.ReflTransGen.tail Relation.ReflTransGen.refl
          (Step.acquire 0 (initConfig 1 0) rfl rfl))
        (Step.readStep 0 ⟨some 0, 0, [TState.holding]⟩ rfl))
      (Step.writeStep 0 ⟨some 0, 0, [TState.readv 0]⟩ 0 rfl))
    (Step.release 0 ⟨some 0, 1, [TState.wrote]⟩ rfl)

/-- Witness for C8: the concrete one-thread interleaving from value zero ends
at value one. -/
theorem concurrent_increments_no_lost_update_witness : c8Final.value = 0 + 1 :=
  concurrent_increments_no_lost_update 1 0 c8Final c8_trace (by decide)
